import Mathlib

set_option autoImplicit false

namespace Leo

/-
Shallow embedding of the LEO protocol implementation.

Framing codec, translated from src/src/protocol.ts.  Wire bytes are
modelled as Nat values (below 256 on the wire); lengths as Nat.
-/

/-- The four big-endian bytes written by Buffer.writeUInt32BE for a length. -/
def toBE4 (n : Nat) : List Nat :=
  [n / 2 ^ 24 % 256, n / 2 ^ 16 % 256, n / 2 ^ 8 % 256, n % 256]

/-- The value read back by Buffer.readUInt32BE from four bytes. -/
def fromBE4 (a b c d : Nat) : Nat := ((a * 256 + b) * 256 + c) * 256 + d

/-- encodeFrame: 4-byte big-endian length followed by the payload,
from src/src/protocol.ts lines 78-82. -/
def encodeFrame (payload : List Nat) : List Nat :=
  toBE4 payload.length ++ payload

/-- consumeFrames, from src/src/protocol.ts lines 84-96: repeatedly peel a
complete length-prefixed frame off the buffer; stop when fewer than four
header bytes remain or the declared length exceeds the bytes available, and
return the decoded frames together with the undecoded remainder. -/
def consumeFrames : List Nat → List (List Nat) × List Nat
  | a :: b :: c :: d :: rest =>
    if rest.length < fromBE4 a b c d then ([], a :: b :: c :: d :: rest)
    else
      let res := consumeFrames (rest.drop (fromBE4 a b c d))
      ((rest.take (fromBE4 a b c d)) :: res.1, res.2)
  | buffer => ([], buffer)
termination_by buffer => buffer.length
decreasing_by simp; omega

theorem fromBE4_toBE4 (n : Nat) (h : n < 2 ^ 32) :
    fromBE4 (n / 2 ^ 24 % 256) (n / 2 ^ 16 % 256) (n / 2 ^ 8 % 256) (n % 256) = n := by
  simp only [fromBE4]
  omega

theorem consumeFrames_nil : consumeFrames [] = ([], []) := by
  simp [consumeFrames]

theorem consumeFrames_short (buffer : List Nat) (h : buffer.length < 4) :
    consumeFrames buffer = ([], buffer) := by
  match buffer with
  | [] => simp [consumeFrames]
  | [a] => simp [consumeFrames]
  | [a, b] => simp [consumeFrames]
  | [a, b, c] => simp [consumeFrames]
  | a :: b :: c :: d :: rest => simp at h; omega

/-- A complete frame at the head of the buffer is peeled off and decoding
continues on the rest. -/
theorem consumeFrames_encode_append (B rest : List Nat) (h : B.length < 2 ^ 32) :
    consumeFrames (encodeFrame B ++ rest) =
      (B :: (consumeFrames rest).1, (consumeFrames rest).2) := by
  have hlen := fromBE4_toBE4 B.length h
  have hshape : encodeFrame B ++ rest =
      B.length / 2 ^ 24 % 256 :: B.length / 2 ^ 16 % 256 :: B.length / 2 ^ 8 % 256 ::
        B.length % 256 :: (B ++ rest) := by
    simp [encodeFrame, toBE4]
  rw [hshape, consumeFrames, hlen]
  have hnot : ¬ (B ++ rest).length < B.length := by
    simp [List.length_append]
  rw [if_neg hnot]
  simp [List.take_left, List.drop_left]

/-- A buffer holding only the four header bytes and a strict prefix of the
declared payload decodes to no frames, leaving the buffer untouched. -/
theorem consumeFrames_incomplete (n : Nat) (t : List Nat)
    (hn : n < 2 ^ 32) (ht : t.length < n) :
    consumeFrames (toBE4 n ++ t) = ([], toBE4 n ++ t) := by
  have hlen := fromBE4_toBE4 n hn
  have hshape : toBE4 n ++ t =
      n / 2 ^ 24 % 256 :: n / 2 ^ 16 % 256 :: n / 2 ^ 8 % 256 :: n % 256 :: t := by
    simp [toBE4]
  rw [hshape, consumeFrames, hlen, if_pos ht]

theorem length_encodeFrame (B : List Nat) : (encodeFrame B).length = 4 + B.length := by
  simp [encodeFrame, toBE4]
  omega

/-- Round trip: a stream that is exactly a concatenation of encoded frames
decodes to exactly those frames with empty remainder. -/
theorem consumeFrames_flatten (Bs : List (List Nat)) (h : ∀ B ∈ Bs, B.length < 2 ^ 32) :
    consumeFrames ((Bs.map encodeFrame).flatten) = (Bs, []) := by
  induction Bs with
  | nil => simpa using consumeFrames_nil
  | cons B Bs ih =>
    have hB : B.length < 2 ^ 32 := h B (by simp)
    have ih' := ih (fun b hb => h b (by simp [hb]))
    simp only [List.map_cons, List.flatten_cons]
    rw [consumeFrames_encode_append _ _ hB, ih']

/-- Truncation: decoding any prefix of an encoded stream yields a prefix of
the frame list, and the remainder joined with the withheld bytes is the
undecoded tail of the stream. -/
theorem consumeFrames_truncation (Bs : List (List Nat)) (k : Nat)
    (h : ∀ B ∈ Bs, B.length < 2 ^ 32) :
    (∃ j, (consumeFrames (((Bs.map encodeFrame).flatten).take k)).1 = Bs.take j) ∧
    (consumeFrames (((Bs.map encodeFrame).flatten).take k)).2 ++
        ((Bs.map encodeFrame).flatten).drop k =
      ((Bs.map encodeFrame).flatten).drop
        ((((consumeFrames (((Bs.map encodeFrame).flatten).take k)).1).map
          (fun B => 4 + B.length)).sum) := by
  induction Bs generalizing k with
  | nil =>
    exact ⟨⟨0, by simp [consumeFrames_nil]⟩, by simp [consumeFrames_nil]⟩
  | cons B Bs ih =>
    have hB : B.length < 2 ^ 32 := h B (by simp)
    have htail : ∀ b ∈ Bs, b.length < 2 ^ 32 := fun b hb => h b (by simp [hb])
    have hjoin : ((B :: Bs).map encodeFrame).flatten
        = encodeFrame B ++ (Bs.map encodeFrame).flatten := by
      simp
    by_cases hk : 4 + B.length ≤ k
    · -- the whole first frame lies inside the truncation
      have hlenB : (encodeFrame B).length ≤ k := by rw [length_encodeFrame]; omega
      have htake : (((B :: Bs).map encodeFrame).flatten).take k
          = encodeFrame B ++ ((Bs.map encodeFrame).flatten).take (k - (4 + B.length)) := by
        rw [hjoin, List.take_append_eq_append_take,
          List.take_of_length_le hlenB, length_encodeFrame]
      have hdrop : ∀ m, 4 + B.length ≤ m →
          (((B :: Bs).map encodeFrame).flatten).drop m
          = ((Bs.map encodeFrame).flatten).drop (m - (4 + B.length)) := by
        intro m hm
        rw [hjoin, List.drop_append_eq_append_drop,
          List.drop_of_length_le (by rw [length_encodeFrame]; omega),
          length_encodeFrame, List.nil_append]
      obtain ⟨⟨j, hj⟩, hrem⟩ := ih (k - (4 + B.length)) htail
      rw [htake, consumeFrames_encode_append _ _ hB]
      set cf := consumeFrames (((Bs.map encodeFrame).flatten).take (k - (4 + B.length)))
        with hcfdef
      constructor
      · exact ⟨j + 1, by simp [List.take_succ_cons, hj]⟩
      · show cf.2 ++ _ = _
        have hsum : (List.map (fun b => 4 + b.length) (B :: cf.1)).sum
            = 4 + B.length + (List.map (fun b => 4 + b.length) cf.1).sum := by
          simp
        rw [hsum, hdrop k hk,
          hdrop (4 + B.length + (List.map (fun b => 4 + b.length) cf.1).sum) (by omega),
          Nat.add_sub_cancel_left]
        exact hrem
    · -- the first frame is incomplete inside the truncation: nothing decodes
      have hcf : consumeFrames ((((B :: Bs).map encodeFrame).flatten).take k)
          = ([], (((B :: Bs).map encodeFrame).flatten).take k) := by
        by_cases hk4 : k < 4
        · exact consumeFrames_short _
            (lt_of_le_of_lt (by simp) hk4)
        · have h4 : 4 ≤ k := by omega
          have hlen4 : (toBE4 B.length).length = 4 := by simp [toBE4]
          have htake : (((B :: Bs).map encodeFrame).flatten).take k
              = toBE4 B.length ++ B.take (k - 4) := by
            rw [hjoin]
            have hsplit : encodeFrame B ++ (Bs.map encodeFrame).flatten
                = toBE4 B.length ++ (B ++ (Bs.map encodeFrame).flatten) := by
              simp [encodeFrame]
            rw [hsplit, List.take_append_eq_append_take,
              List.take_of_length_le (by rw [hlen4]; omega), hlen4,
              List.take_append_of_le_length (by omega)]
          rw [htake]
          exact consumeFrames_incomplete B.length _ hB
            (by rw [List.length_take]; omega)
      rw [hcf]
      exact ⟨⟨0, by simp⟩, by simp⟩

/-- C2: for every list of byte sequences B1..Bn, consumeFrames applied to the
concatenation of their encodings returns exactly those frames with an empty
remaining buffer; and for every truncation (take k) of that stream,
consumeFrames returns a prefix of the frame list together with a remainder
such that the remainder concatenated with the withheld bytes equals the
undecoded tail of the original stream. -/
theorem C2_frame_roundtrip_and_truncation (Bs : List (List Nat)) (k : Nat)
    (h : ∀ B ∈ Bs, B.length < 2 ^ 32) :
    consumeFrames ((Bs.map encodeFrame).flatten) = (Bs, []) ∧
    (∃ j, (consumeFrames (((Bs.map encodeFrame).flatten).take k)).1 = Bs.take j) ∧
    (consumeFrames (((Bs.map encodeFrame).flatten).take k)).2 ++
        ((Bs.map encodeFrame).flatten).drop k =
      ((Bs.map encodeFrame).flatten).drop
        ((((consumeFrames (((Bs.map encodeFrame).flatten).take k)).1).map
          (fun B => 4 + B.length)).sum) :=
  ⟨consumeFrames_flatten Bs h, (consumeFrames_truncation Bs k h).1,
    (consumeFrames_truncation Bs k h).2⟩

/-- Witness for C2 at the concrete frames [1,2,3] and [4,5] and truncation
length 9 (the first frame plus the header of the second). -/
theorem C2_witness :
    (∀ B ∈ ([[1, 2, 3], [4, 5]] : List (List Nat)), B.length < 2 ^ 32) ∧
    (consumeFrames ((([[1, 2, 3], [4, 5]] : List (List Nat)).map encodeFrame).flatten)
        = ([[1, 2, 3], [4, 5]], []) ∧
      (∃ j, (consumeFrames ((((([[1, 2, 3], [4, 5]] : List (List Nat)).map
            encodeFrame).flatten)).take 9)).1
          = ([[1, 2, 3], [4, 5]] : List (List Nat)).take j) ∧
      (consumeFrames ((((([[1, 2, 3], [4, 5]] : List (List Nat)).map
            encodeFrame).flatten)).take 9)).2 ++
          ((([[1, 2, 3], [4, 5]] : List (List Nat)).map encodeFrame).flatten).drop 9 =
        ((([[1, 2, 3], [4, 5]] : List (List Nat)).map encodeFrame).flatten).drop
          ((((consumeFrames ((((([[1, 2, 3], [4, 5]] : List (List Nat)).map
              encodeFrame).flatten)).take 9)).1).map (fun B => 4 + B.length)).sum)) :=
  ⟨by decide, C2_frame_roundtrip_and_truncation [[1, 2, 3], [4, 5]] 9 (by decide)⟩

/-
Storage adapter, translated from src/unnamed/part_005 (the storage module
exporting StorageError, imported by src/src/server/session.ts).  Paths are
POSIX strings; path.resolve is modelled lexically for an absolute base, as
Node does: join, split on the separator, process "." and ".." segments with
no escape above the root, and rejoin.
-/

/-- StorageError, from src/unnamed/part_005 lines 4-9. -/
structure StorageError where
  code : String
  message : String
deriving DecidableEq

/-- Split a character list on the path separator. -/
def splitSlash (cs : List Char) : List (List Char) :=
  cs.foldr (fun c acc =>
    if c = '/' then [] :: acc
    else (c :: acc.headD []) :: acc.tail) [[]]

/-- Lexical normalization of path segments, as performed by Node's
path.posix resolution: empty and "." segments vanish, ".." pops the last
kept segment and is dropped at the root. -/
def normSegs (segs : List (List Char)) : List (List Char) :=
  segs.foldl (fun acc seg =>
    if seg = [] ∨ seg = ['.'] then acc
    else if seg = ['.', '.'] then acc.dropLast
    else acc ++ [seg]) []

/-- Render normalized segments as an absolute path. -/
def renderAbs (segs : List (List Char)) : List Char :=
  '/' :: List.intercalate ['/'] segs

/-- Node path.resolve on one absolute argument: pure normalization. -/
def pathResolve1 (base : List Char) : List Char :=
  renderAbs (normSegs (splitSlash base))

/-- Node path.resolve(base, rel) for an absolute base: an absolute rel wins,
otherwise rel is joined onto base, then the result is normalized. -/
def pathResolve (base rel : List Char) : List Char :=
  if rel.headD ' ' = '/' then pathResolve1 rel
  else pathResolve1 (base ++ '/' :: rel)

/-- Storage.resolvePath, from src/unnamed/part_005 lines 14-19: resolve the
user path against the base, and accept it when the resolved string merely
starts with the resolved base (a raw string comparison, the JS
String.prototype.startsWith). -/
def resolvePath (basePath relativePath : String) : Except StorageError String :=
  let resolved := pathResolve basePath.toList relativePath.toList
  let safeRoot := pathResolve1 basePath.toList
  if safeRoot.isPrefixOf resolved then Except.ok (String.mk resolved)
  else Except.error ⟨"INVALID_PATH", "Chemin en dehors de la racine autorisée"⟩

/-- The specification notion of path safety: the resolved path must be equal
to the canonical root or a descendant of it (root followed by a separator). -/
def specDescendantOfRoot (root p : String) : Bool :=
  p.toList == root.toList || (root.toList ++ ['/']).isPrefixOf p.toList

/-- C1: the claim states that every user path whose lexical resolution
escapes the root fails with INVALID_PATH, so that no resolved path outside
the root reaches the filesystem.  The code checks only that the resolved
string starts with the root string, so a sibling directory whose name has
the root as a string prefix passes: with root "/data", the traversal input
"../datax" resolves to "/datax", which is accepted although it is neither
the root nor a descendant of it. -/
theorem C1_resolvePath_escape_eval :
    resolvePath "/data" "../datax" = Except.ok "/datax" ∧
    specDescendantOfRoot "/data" "/datax" = false := by
  constructor
  · rfl
  · decide

/-
Session actor, translated from src/src/server/session.ts.  One message step
is modelled as a pure function from the session state and the inbound
message to the new state, the replies written to the socket, and the socket
operations performed (destroy, end).  Storage calls are abstracted by an
oracle of Except-valued operations, matching the StorageError interface of
src/unnamed/part_005.
-/

structure Credentials where
  username : String
  password : String
deriving DecidableEq

structure ServerInfo where
  protocolVersion : Nat
  capabilities : List String
deriving DecidableEq

structure DirEntry where
  name : String
  isDir : Bool
  size : Option Nat
deriving DecidableEq

/-- Inbound application messages after JSON decoding.  The unknown
constructor stands for an object whose type string is none of the commands
of the schema; noType stands for an object whose type field is absent or
not a string (undefined after the cast, hence falsy). -/
inductive LeoMsg
  | auth (username password : String)
  | putBegin (path : String) (size : Nat)
  | putChunk (path : String) (offset : Nat) (data : List Nat)
  | putEnd (path : String)
  | getBegin (path : String)
  | listDir (path : String)
  | del (path : String)
  | infoReq
  | bye
  | unknown (ty : String)
  | noType
deriving DecidableEq

/-- Outbound messages written by the session (payload fields kept to the
ones the specification talks about). -/
inductive OutMsg
  | errorMsg (errorCode message : String)
  | authOk
  | authError (errorCode message : String)
  | putOk (path : String)
  | getMeta (path : String) (size : Nat)
  | getChunk (path : String) (offset : Nat) (data : List Nat)
  | getEnd (path : String)
  | listResult (path : String) (items : List DirEntry)
  | delOk (path : String)
  | delError (path errorCode message : String)
  | infoResult (protocolVersion : Nat) (capabilities : List String)
deriving DecidableEq

/-- The mutable per-session fields the post-handshake claims depend on:
the authed flag and the ongoingUploads map (path to declared size and
received byte count). -/
structure SessionState where
  authed : Bool
  ongoingUploads : List (String × Nat × Nat)
deriving DecidableEq

/-- Result of processing one inbound message or frame. -/
structure StepResult where
  state : SessionState
  sent : List OutMsg
  destroyed : Bool
  ended : Bool
deriving DecidableEq

/-- JS Map.get on the ongoingUploads association list. -/
def mapGet (m : List (String × Nat × Nat)) (k : String) : Option (Nat × Nat) :=
  match m.find? (fun e => e.1 == k) with
  | some e => some e.2
  | none => none

/-- JS Map.set: replace the entry in place, or append a new one. -/
def mapSet (m : List (String × Nat × Nat)) (k : String) (v : Nat × Nat) :
    List (String × Nat × Nat) :=
  if (m.find? (fun e => e.1 == k)).isSome then
    m.map (fun e => if e.1 == k then (k, v) else e)
  else m ++ [(k, v)]

/-- JS Map.delete: drop the entry with the given key. -/
def mapDelete (m : List (String × Nat × Nat)) (k : String) :
    List (String × Nat × Nat) :=
  m.filter (fun e => e.1 != k)

structure SessionError where
  errorCode : String
  message : String
deriving DecidableEq

/-- LeoSession.mapStorageError, from src/src/server/session.ts lines
325-341, restricted to StorageError causes (the oracle only produces
those). -/
def mapStorageError (e : StorageError) : SessionError :=
  if e.code = "INVALID_PATH" then ⟨"INVALID_PATH", e.message⟩
  else if e.code = "FILE_NOT_FOUND" then ⟨"FILE_NOT_FOUND", e.message⟩
  else if e.code = "PERMISSION_DENIED" then ⟨"PERMISSION_DENIED", e.message⟩
  else if e.code = "NOT_A_FILE" then ⟨"NOT_A_FILE", e.message⟩
  else ⟨"IO_ERROR", e.message⟩

/-- LeoSession.sendError as an outbound message. -/
def errorOut (e : SessionError) : OutMsg := .errorMsg e.errorCode e.message

/-- The storage adapter as seen by the session: each operation either
succeeds or fails with a StorageError. -/
structure StorageOracle where
  writeWholeFile : String → List Nat → Except StorageError Unit
  writeChunk : String → List Nat → Nat → Except StorageError Unit
  fileSize : String → Except StorageError Nat
  readChunk : String → Nat → Nat → Except StorageError (List Nat)
  listEntries : String → Except StorageError (List DirEntry)
  deleteFile : String → Except StorageError Unit

/-- LeoSession.handleAuth, lines 216-226. -/
def handleAuth (creds : Credentials) (st : SessionState) (u p : String) : StepResult :=
  if u = creds.username ∧ p = creds.password then
    ⟨{ st with authed := true }, [.authOk], false, false⟩
  else
    ⟨st, [.authError "AUTH_INVALID_CREDENTIALS" "Identifiants invalides"], false, false⟩

/-- LeoSession.handlePutBegin, lines 228-236: register the upload, then
truncate-create the file; a storage failure is reported via sendError. -/
def handlePutBegin (stor : StorageOracle) (st : SessionState) (p : String) (size : Nat) :
    StepResult :=
  let st' := { st with ongoingUploads := mapSet st.ongoingUploads p (size, 0) }
  match stor.writeWholeFile p [] with
  | .ok _ => ⟨st', [], false, false⟩
  | .error e => ⟨st', [errorOut (mapStorageError e)], false, false⟩

/-- LeoSession.handlePutChunk, lines 238-247. -/
def handlePutChunk (stor : StorageOracle) (st : SessionState) (p : String) (off : Nat)
    (data : List Nat) : StepResult :=
  match mapGet st.ongoingUploads p with
  | none => ⟨st, [.errorMsg "UPLOAD_NOT_INITIALIZED" "PUT_BEGIN manquant"], false, false⟩
  | some (size, received) =>
    let st' := { st with
      ongoingUploads := mapSet st.ongoingUploads p (size, received + data.length) }
    match stor.writeChunk p data off with
    | .ok _ => ⟨st', [], false, false⟩
    | .error e => ⟨st', [errorOut (mapStorageError e)], false, false⟩

/-- LeoSession.handlePutEnd, lines 249-253: drop the upload entry if it is
there and reply PUT_OK unconditionally. -/
def handlePutEnd (st : SessionState) (p : String) : StepResult :=
  ⟨{ st with ongoingUploads := mapDelete st.ongoingUploads p }, [.putOk p], false, false⟩

/-- The chunk streaming loop of LeoSession.handleGetBegin, lines 259-265:
while the offset is below the size, read up to 65536 bytes and emit a
GET_CHUNK, advancing by the returned chunk length.  The code has no bound
of its own, so the model uses fuel; none models the loop not terminating
(which the code does when a read inside the file returns no bytes). -/
def getLoop (stor : StorageOracle) (p : String) (size : Nat) :
    Nat → Nat → Option (List OutMsg)
  | fuel, offset =>
    if offset < size then
      match fuel with
      | 0 => none
      | fuel + 1 =>
        match stor.readChunk p offset 65536 with
        | .error e => some [errorOut (mapStorageError e)]
        | .ok chunk =>
          (getLoop stor p size fuel (offset + chunk.length)).map
            (fun rest => .getChunk p offset chunk :: rest)
    else some [.getEnd p]

/-- LeoSession.handleGetBegin, lines 255-271. -/
def handleGetBegin (stor : StorageOracle) (st : SessionState) (p : String) (fuel : Nat) :
    Option StepResult :=
  match stor.fileSize p with
  | .error e => some ⟨st, [errorOut (mapStorageError e)], false, false⟩
  | .ok size =>
    (getLoop stor p size fuel 0).map
      (fun msgs => ⟨st, .getMeta p size :: msgs, false, false⟩)

/-- LeoSession.handleList, lines 273-281. -/
def handleList (stor : StorageOracle) (st : SessionState) (p : String) : StepResult :=
  match stor.listEntries p with
  | .ok items => ⟨st, [.listResult p items], false, false⟩
  | .error e => ⟨st, [errorOut (mapStorageError e)], false, false⟩

/-- LeoSession.handleDel, lines 283-301. -/
def handleDel (stor : StorageOracle) (st : SessionState) (p : String) : StepResult :=
  match stor.deleteFile p with
  | .ok _ => ⟨st, [.delOk p], false, false⟩
  | .error e =>
    ⟨st, [.delError p (mapStorageError e).errorCode (mapStorageError e).message],
      false, false⟩

/-- LeoSession.handleInfo, lines 303-312. -/
def handleInfo (info : ServerInfo) (st : SessionState) : StepResult :=
  ⟨st, [.infoResult info.protocolVersion info.capabilities], false, false⟩

/-- LeoSession.handleBye, lines 314-317: no reply, half-close the socket. -/
def handleBye (st : SessionState) : StepResult := ⟨st, [], false, true⟩

/-- The type string of a decoded message, as read by routeMessage. -/
def typeOf : LeoMsg → Option String
  | .auth .. => some "AUTH"
  | .putBegin .. => some "PUT_BEGIN"
  | .putChunk .. => some "PUT_CHUNK"
  | .putEnd .. => some "PUT_END"
  | .getBegin .. => some "GET_BEGIN"
  | .listDir .. => some "LIST"
  | .del .. => some "DEL"
  | .infoReq => some "INFO"
  | .bye => some "BYE"
  | .unknown ty => some ty
  | .noType => none

/-- The JS falsy test on the type field in routeMessage line 178. -/
def typeFalsy (m : LeoMsg) : Bool :=
  match typeOf m with
  | none => true
  | some t => t = ""

/-- LeoSession.ensureAuth, lines 169-174. -/
def ensureAuth (st : SessionState) (m : LeoMsg) : Bool :=
  st.authed || typeOf m == some "AUTH"

/-- LeoSession.routeMessage, lines 176-214. -/
def routeMessage (stor : StorageOracle) (creds : Credentials) (info : ServerInfo)
    (st : SessionState) (m : LeoMsg) (fuel : Nat) : Option StepResult :=
  if typeFalsy m then
    some ⟨st, [.errorMsg "INVALID_MESSAGE" "Type absent"], false, false⟩
  else if ¬ ensureAuth st m then
    some ⟨st, [.errorMsg "UNAUTHORIZED" "Authentification requise"], false, false⟩
  else
    match m with
    | .auth u p => some (handleAuth creds st u p)
    | .putBegin p size => some (handlePutBegin stor st p size)
    | .putChunk p off data => some (handlePutChunk stor st p off data)
    | .putEnd p => some (handlePutEnd st p)
    | .getBegin p => handleGetBegin stor st p fuel
    | .listDir p => some (handleList stor st p)
    | .del p => some (handleDel stor st p)
    | .infoReq => some (handleInfo info st)
    | .bye => some (handleBye st)
    | .unknown ty =>
      some ⟨st, [.errorMsg "INVALID_COMMAND" ("Commande inconnue: " ++ ty)], false, false⟩
    | .noType => some ⟨st, [.errorMsg "INVALID_MESSAGE" "Type absent"], false, false⟩

/-- Outcome of decrypting one frame and JSON-parsing the plaintext:
the AEAD can fail, the plaintext can fail to parse as JSON, or a message
is obtained. -/
inductive FrameDecode
  | aeadFail
  | badJson
  | msg (m : LeoMsg)
deriving DecidableEq

/-- LeoSession.handleEncryptedFrame, lines 132-154: an AEAD failure
destroys the socket with no reply; unparseable JSON is answered with
ERROR INVALID_MESSAGE and processing returns without closing; otherwise
the message is routed. -/
def handleEncryptedFrame (stor : StorageOracle) (creds : Credentials) (info : ServerInfo)
    (st : SessionState) (d : FrameDecode) (fuel : Nat) : Option StepResult :=
  match d with
  | .aeadFail => some ⟨st, [], true, false⟩
  | .badJson => some ⟨st, [.errorMsg "INVALID_MESSAGE" "Message illisible"], false, false⟩
  | .msg m => routeMessage stor creds info st m fuel

/-- The frame loop of LeoSession.onData, lines 80-86: every frame returned
by consumeFrames is handed to handleEncryptedFrame in order, with no size
screening of any kind. -/
def processFrames (stor : StorageOracle) (creds : Credentials) (info : ServerInfo)
    (decode : List Nat → FrameDecode) (fuel : Nat) :
    List (List Nat) → SessionState → Option StepResult
  | [], st => some ⟨st, [], false, false⟩
  | f :: fs, st =>
    match handleEncryptedFrame stor creds info st (decode f) fuel with
    | none => none
    | some r =>
      (processFrames stor creds info decode fuel fs r.state).map
        (fun rest => ⟨rest.state, r.sent ++ rest.sent,
          r.destroyed || rest.destroyed, r.ended || rest.ended⟩)

/-- LeoSession.onData in the post-handshake branch, lines 79-86: append the
chunk to the frame buffer, peel off the complete frames, process each one,
keep the remainder. -/
def onData (stor : StorageOracle) (creds : Credentials) (info : ServerInfo)
    (decode : List Nat → FrameDecode) (fuel : Nat) (st : SessionState)
    (frameBuffer chunk : List Nat) : Option (StepResult × List Nat) :=
  let res := consumeFrames (frameBuffer ++ chunk)
  (processFrames stor creds info decode fuel res.1 st).map (fun out => (out, res.2))

/-
Handshake validation, translated from LeoSession.handleClientHello,
src/src/server/session.ts lines 89-130.
-/

/-- The fields of a parsed first line, as inspected by handleClientHello.
A field that is absent or, for clientPublicKey, not a string, is none. -/
structure HelloMsg where
  type : Option String
  version : Option Int
  kex : Option String
  cipher : Option String
  clientPublicKey : Option String
deriving DecidableEq

inductive HelloOutcome
  | destroyed
  | accepted
deriving DecidableEq

/-- handleClientHello on a parsed line (none models a JSON parse failure):
destroy the socket on any failed check, otherwise proceed to key
derivation and reply SERVER_HELLO. -/
def handleClientHello (line : Option HelloMsg) : HelloOutcome :=
  match line with
  | none => .destroyed
  | some m =>
    if m.type ≠ some "CLIENT_HELLO" ∨ m.version ≠ some 1 ∨ m.kex ≠ some "X25519"
        ∨ m.cipher ≠ some "AES-256-GCM" ∨ m.clientPublicKey = none then
      .destroyed
    else .accepted

/-- Whether any reply line is written for a handshake outcome: only an
accepted hello writes (the SERVER_HELLO line); destruction is silent. -/
def helloReplySent : HelloOutcome → Bool
  | .destroyed => false
  | .accepted => true

/- Concrete fixtures used by witnesses and counterexamples. -/

/-- A storage oracle for an empty storage root: writes succeed, reads find
nothing. -/
def oracleEmpty : StorageOracle where
  writeWholeFile := fun _ _ => Except.ok ()
  writeChunk := fun _ _ _ => Except.ok ()
  fileSize := fun _ => Except.error ⟨"FILE_NOT_FOUND", "Fichier introuvable"⟩
  readChunk := fun _ _ _ => Except.ok []
  listEntries := fun _ => Except.ok []
  deleteFile := fun _ => Except.error ⟨"FILE_NOT_FOUND", "Fichier introuvable"⟩

def creds0 : Credentials := ⟨"user", "pass"⟩

def info0 : ServerInfo := ⟨1, ["AUTH", "PUT", "GET", "LIST", "DEL", "INFO", "BYE"]⟩

/-- Post-handshake state before authentication. -/
def stStart : SessionState := ⟨false, []⟩

/-- Post-handshake state after successful authentication. -/
def stReady : SessionState := ⟨true, []⟩

/-- C3 (amended): after the handshake, a frame that decrypts but whose
plaintext is not valid JSON is answered with ERROR INVALID_MESSAGE
"Message illisible" and the session continues: the socket is neither
destroyed nor ended and the state is unchanged. -/
theorem C3_malformed_json_error_session_continues (stor : StorageOracle)
    (creds : Credentials) (info : ServerInfo) (st : SessionState) (fuel : Nat) :
    handleEncryptedFrame stor creds info st FrameDecode.badJson fuel
      = some ⟨st, [OutMsg.errorMsg "INVALID_MESSAGE" "Message illisible"], false, false⟩ :=
  rfl

/-- C3 counterexample to the claim as stated: on a malformed JSON frame in
the ready state the server sends the ERROR but the step neither destroys
nor ends the socket, so the session is not closed. -/
theorem C3_counterexample :
    handleEncryptedFrame oracleEmpty creds0 info0 stReady FrameDecode.badJson 0
        = some ⟨stReady, [OutMsg.errorMsg "INVALID_MESSAGE" "Message illisible"],
          false, false⟩ ∧
    (handleEncryptedFrame oracleEmpty creds0 info0 stReady FrameDecode.badJson 0).all
        (fun r => !r.destroyed && !r.ended) = true :=
  ⟨rfl, rfl⟩

/-- C4 (amended): the first handshake line is answered by silently
destroying the socket exactly when it is not valid JSON or its type,
version, cipher or kex fields mismatch or its clientPublicKey is absent or
not a string; string emptiness is not among the checks, and destruction
sends no reply. -/
theorem C4_hello_validation (m : HelloMsg) :
    (handleClientHello (some m) = HelloOutcome.destroyed ↔
      ¬(m.type = some "CLIENT_HELLO" ∧ m.version = some 1 ∧
        m.cipher = some "AES-256-GCM" ∧ m.kex = some "X25519" ∧
        m.clientPublicKey ≠ none)) ∧
    handleClientHello none = HelloOutcome.destroyed ∧
    helloReplySent HelloOutcome.destroyed = false := by
  refine ⟨?_, rfl, rfl⟩
  have hred : handleClientHello (some m)
      = if m.type ≠ some "CLIENT_HELLO" ∨ m.version ≠ some 1 ∨ m.kex ≠ some "X25519"
            ∨ m.cipher ≠ some "AES-256-GCM" ∨ m.clientPublicKey = none
        then HelloOutcome.destroyed else HelloOutcome.accepted := rfl
  rw [hred]
  by_cases hc : m.type ≠ some "CLIENT_HELLO" ∨ m.version ≠ some 1 ∨ m.kex ≠ some "X25519"
      ∨ m.cipher ≠ some "AES-256-GCM" ∨ m.clientPublicKey = none
  · rw [if_pos hc]
    simp only [true_iff]
    tauto
  · rw [if_neg hc]
    push_neg at hc
    exact iff_of_false (by simp) (by tauto)

/-- C4 counterexample to the claim as stated: a CLIENT_HELLO whose
clientPublicKey is the empty string passes validation and is accepted, so
the server does not close the socket on it. -/
theorem C4_counterexample :
    handleClientHello (some ⟨some "CLIENT_HELLO", some 1, some "X25519",
        some "AES-256-GCM", some ""⟩) = HelloOutcome.accepted := by
  decide

/-- C5 (amended): the implementation enforces no maximum frame size:
a frame of any declared length below 2^32 — in particular above the 16 MiB
the specification names — is decoded by consumeFrames once complete and
handed by onData to frame decryption like any other frame. -/
theorem C5_no_frame_size_limit (B : List Nat) (h : B.length < 2 ^ 32) :
    consumeFrames (encodeFrame B) = ([B], []) ∧
    ∀ (stor : StorageOracle) (creds : Credentials) (info : ServerInfo)
      (decode : List Nat → FrameDecode) (fuel : Nat) (st : SessionState),
      onData stor creds info decode fuel st [] (encodeFrame B)
        = (processFrames stor creds info decode fuel [B] st).map (fun out => (out, [])) := by
  have h1 : consumeFrames (encodeFrame B) = ([B], []) := by
    have h2 := consumeFrames_encode_append B [] h
    rw [consumeFrames_nil] at h2
    simpa using h2
  refine ⟨h1, ?_⟩
  intro stor creds info decode fuel st
  unfold onData
  simp [h1]

/-- Witness for C5 at the one-byte frame [7]. -/
theorem C5_witness :
    consumeFrames (encodeFrame [7]) = ([[7]], []) ∧
    onData oracleEmpty creds0 info0 (fun _ => FrameDecode.badJson) 0 stReady []
        (encodeFrame [7])
      = (processFrames oracleEmpty creds0 info0 (fun _ => FrameDecode.badJson) 0
          [[7]] stReady).map (fun out => (out, [])) :=
  ⟨(C5_no_frame_size_limit [7] (by decide)).1,
    (C5_no_frame_size_limit [7] (by decide)).2 oracleEmpty creds0 info0
      (fun _ => FrameDecode.badJson) 0 stReady⟩

/-- C5 counterexample to the claim as stated: a frame whose declared length
is 2^24 + 1 bytes (one byte above 16 MiB) is not a fatal error: it is
delivered to decryption and fully processed — here a decrypted PUT_END
obtains its PUT_OK reply — and the socket is not destroyed. -/
theorem C5_counterexample :
    onData oracleEmpty creds0 info0 (fun _ => FrameDecode.msg (LeoMsg.putEnd "f")) 0
        stReady [] (encodeFrame (List.replicate (2 ^ 24 + 1) 0))
      = some (⟨stReady, [OutMsg.putOk "f"], false, false⟩, []) := by
  generalize hgen : List.replicate (2 ^ 24 + 1) (0 : Nat) = B
  have hlen : B.length < 2 ^ 32 := by
    rw [← hgen, List.length_replicate]
    norm_num
  have h1 : consumeFrames (encodeFrame B) = ([B], []) := by
    have h2 := consumeFrames_encode_append B [] hlen
    rw [consumeFrames_nil] at h2
    simpa using h2
  unfold onData
  rw [List.nil_append, h1]
  rfl

theorem mapDelete_of_absent (m : List (String × Nat × Nat)) (k : String)
    (h : mapGet m k = none) : mapDelete m k = m := by
  have hall : ∀ e ∈ m, ¬((fun e => e.1 == k) e = true) := by
    rcases hfind : List.find? (fun e => e.1 == k) m with _ | e
    · exact List.find?_eq_none.mp hfind
    · exfalso
      simp [mapGet, hfind] at h
  rw [mapDelete, List.filter_eq_self.mpr]
  intro a ha
  have hne := hall a ha
  simp only [Bool.not_eq_true] at hne
  simp [bne, hne]

/-- C7: in the post-handshake unauthenticated state, every command whose
type is a nonempty string other than AUTH is answered ERROR UNAUTHORIZED
"Authentification requise" with the state unchanged; an AUTH with the
configured credentials transitions to authenticated and replies AUTH_OK;
an AUTH with any other credentials replies AUTH_ERROR
AUTH_INVALID_CREDENTIALS and leaves the session unauthenticated and open,
so the same correct AUTH still succeeds later. -/
theorem C7_awaitauth_gate (stor : StorageOracle) (creds : Credentials)
    (info : ServerInfo) (st : SessionState) (fuel : Nat) (hauth : st.authed = false) :
    (∀ (m : LeoMsg) (t : String), typeOf m = some t → t ≠ "AUTH" → t ≠ "" →
      routeMessage stor creds info st m fuel
        = some ⟨st, [OutMsg.errorMsg "UNAUTHORIZED" "Authentification requise"],
            false, false⟩) ∧
    routeMessage stor creds info st (LeoMsg.auth creds.username creds.password) fuel
      = some ⟨{ st with authed := true }, [OutMsg.authOk], false, false⟩ ∧
    (∀ u p, ¬(u = creds.username ∧ p = creds.password) →
      routeMessage stor creds info st (LeoMsg.auth u p) fuel
        = some ⟨st, [OutMsg.authError "AUTH_INVALID_CREDENTIALS" "Identifiants invalides"],
            false, false⟩) := by
  refine ⟨?_, ?_, ?_⟩
  · intro m t ht hA h0
    cases m
    case auth u p =>
      have : t = "AUTH" := by simpa [typeOf] using ht.symm
      exact absurd this hA
    case noType => simp [typeOf] at ht
    case unknown ty =>
      have hty : ty = t := by simpa [typeOf] using ht
      subst hty
      simp [routeMessage, typeFalsy, typeOf, ensureAuth, hauth, h0, hA]
    all_goals simp [routeMessage, typeFalsy, typeOf, ensureAuth, hauth]
  · simp [routeMessage, typeFalsy, typeOf, ensureAuth, handleAuth]
  · intro u p hne
    simp [routeMessage, typeFalsy, typeOf, ensureAuth, handleAuth, hne]

/-- Witness for C7 with credentials user/pass on the unauthenticated state:
a LIST is refused with UNAUTHORIZED, the right AUTH succeeds, a wrong AUTH
is answered AUTH_ERROR with the state unchanged. -/
theorem C7_witness :
    stStart.authed = false ∧
    routeMessage oracleEmpty creds0 info0 stStart (LeoMsg.listDir "x") 0
      = some ⟨stStart, [OutMsg.errorMsg "UNAUTHORIZED" "Authentification requise"],
          false, false⟩ ∧
    routeMessage oracleEmpty creds0 info0 stStart
        (LeoMsg.auth creds0.username creds0.password) 0
      = some ⟨{ stStart with authed := true }, [OutMsg.authOk], false, false⟩ ∧
    routeMessage oracleEmpty creds0 info0 stStart (LeoMsg.auth "user" "wrong") 0
      = some ⟨stStart, [OutMsg.authError "AUTH_INVALID_CREDENTIALS" "Identifiants invalides"],
          false, false⟩ :=
  ⟨rfl,
    (C7_awaitauth_gate oracleEmpty creds0 info0 stStart 0 rfl).1
      (LeoMsg.listDir "x") "LIST" rfl (by decide) (by decide),
    (C7_awaitauth_gate oracleEmpty creds0 info0 stStart 0 rfl).2.1,
    (C7_awaitauth_gate oracleEmpty creds0 info0 stStart 0 rfl).2.2
      "user" "wrong" (by decide)⟩

/-- C9: in the authenticated state, PUT_END removes the upload entry for
the path (a no-op when absent) and replies PUT_OK unconditionally — in
particular also when no PUT_BEGIN was ever received for that path, in
which case the state is fully unchanged. -/
theorem C9_putend_unconditional (stor : StorageOracle) (creds : Credentials)
    (info : ServerInfo) (st : SessionState) (p : String) (fuel : Nat)
    (hauth : st.authed = true) :
    routeMessage stor creds info st (LeoMsg.putEnd p) fuel
      = some ⟨{ st with ongoingUploads := mapDelete st.ongoingUploads p },
          [OutMsg.putOk p], false, false⟩ ∧
    (mapGet st.ongoingUploads p = none →
      routeMessage stor creds info st (LeoMsg.putEnd p) fuel
        = some ⟨st, [OutMsg.putOk p], false, false⟩) := by
  have h1 : routeMessage stor creds info st (LeoMsg.putEnd p) fuel
      = some ⟨{ st with ongoingUploads := mapDelete st.ongoingUploads p },
          [OutMsg.putOk p], false, false⟩ := by
    simp [routeMessage, typeFalsy, typeOf, ensureAuth, hauth, handlePutEnd]
  refine ⟨h1, fun habs => ?_⟩
  rw [h1, mapDelete_of_absent _ _ habs]

/-- Witness for C9: an authenticated session with an upload in progress for
"g" and none for "f" replies PUT_OK to PUT_END for "f" with nothing
changed. -/
theorem C9_witness :
    (SessionState.mk true [("g", 5, 0)]).authed = true ∧
    routeMessage oracleEmpty creds0 info0 (SessionState.mk true [("g", 5, 0)])
        (LeoMsg.putEnd "f") 0
      = some ⟨SessionState.mk true [("g", 5, 0)], [OutMsg.putOk "f"], false, false⟩ :=
  ⟨rfl,
    (C9_putend_unconditional oracleEmpty creds0 info0
      (SessionState.mk true [("g", 5, 0)]) "f" 0 rfl).2 (by decide)⟩

theorem mapStorageError_code_ne_unauth (e : StorageError) :
    (mapStorageError e).errorCode ≠ "UNAUTHORIZED" := by
  unfold mapStorageError
  split_ifs <;> simp

theorem errorOut_ne_unauth (e : StorageError) :
    errorOut (mapStorageError e)
      ≠ OutMsg.errorMsg "UNAUTHORIZED" "Authentification requise" := by
  intro hc
  simp only [errorOut, OutMsg.errorMsg.injEq] at hc
  exact mapStorageError_code_ne_unauth e hc.1

theorem getLoop_no_unauth (stor : StorageOracle) (p : String) (size : Nat) :
    ∀ (fuel offset : Nat) (msgs : List OutMsg),
      getLoop stor p size fuel offset = some msgs →
      OutMsg.errorMsg "UNAUTHORIZED" "Authentification requise" ∉ msgs := by
  intro fuel
  induction fuel with
  | zero =>
    intro offset msgs h
    rw [getLoop] at h
    by_cases ho : offset < size
    · simp [ho] at h
    · simp [ho] at h
      simp [← h]
  | succ fuel ih =>
    intro offset msgs h
    rw [getLoop] at h
    by_cases ho : offset < size
    · rw [if_pos ho] at h
      cases hrc : stor.readChunk p offset 65536 with
      | error e =>
        rw [hrc] at h
        simp at h
        rw [← h]
        intro hmem
        rw [List.mem_singleton] at hmem
        exact errorOut_ne_unauth e hmem.symm
      | ok chunk =>
        rw [hrc] at h
        simp at h
        obtain ⟨rest, hr, hm⟩ := h
        rw [← hm]
        intro hmem
        rcases List.mem_cons.mp hmem with h1 | h2
        · simp at h1
        · exact ih _ _ hr h2
    · simp [ho] at h
      simp [← h]

/-- C10: once authed becomes true it never becomes false again: every
routed message yields a state that is still authenticated; an AUTH with
wrong credentials after authentication is answered AUTH_ERROR with the
state unchanged; and no message processed in the authenticated state is
ever answered with the UNAUTHORIZED error, so commands keep being
executed. -/
theorem C10_authed_monotone (stor : StorageOracle) (creds : Credentials)
    (info : ServerInfo) (st : SessionState) (fuel : Nat) (hauth : st.authed = true) :
    (∀ (m : LeoMsg) (r : StepResult),
      routeMessage stor creds info st m fuel = some r → r.state.authed = true) ∧
    (∀ u p, ¬(u = creds.username ∧ p = creds.password) →
      routeMessage stor creds info st (LeoMsg.auth u p) fuel
        = some ⟨st, [OutMsg.authError "AUTH_INVALID_CREDENTIALS" "Identifiants invalides"],
            false, false⟩) ∧
    (∀ (m : LeoMsg) (r : StepResult),
      routeMessage stor creds info st m fuel = some r →
      OutMsg.errorMsg "UNAUTHORIZED" "Authentification requise" ∉ r.sent) := by
  have main : ∀ (m : LeoMsg) (r : StepResult),
      routeMessage stor creds info st m fuel = some r →
      r.state.authed = true ∧
      OutMsg.errorMsg "UNAUTHORIZED" "Authentification requise" ∉ r.sent := by
    intro m r h
    cases m
    case auth u p =>
      simp [routeMessage, typeFalsy, typeOf, ensureAuth, hauth, handleAuth] at h
      split at h <;> rw [← h] <;> simp [hauth]
    case putBegin p size =>
      simp [routeMessage, typeFalsy, typeOf, ensureAuth, hauth, handlePutBegin] at h
      cases hw : stor.writeWholeFile p [] with
      | ok u =>
        rw [hw] at h
        rw [← h]
        simp [hauth]
      | error e =>
        rw [hw] at h
        rw [← h]
        refine ⟨by simp [hauth], ?_⟩
        intro hmem
        simp only [StepResult.sent, List.mem_singleton] at hmem
        exact errorOut_ne_unauth e hmem.symm
    case putChunk p off data =>
      simp [routeMessage, typeFalsy, typeOf, ensureAuth, hauth, handlePutChunk] at h
      cases hg : mapGet st.ongoingUploads p with
      | none =>
        rw [hg] at h
        rw [← h]
        simp [hauth]
      | some v =>
        rw [hg] at h
        obtain ⟨sz, rc⟩ := v
        cases hw : stor.writeChunk p data off with
        | ok u =>
          rw [hw] at h
          rw [← h]
          simp [hauth]
        | error e =>
          rw [hw] at h
          rw [← h]
          refine ⟨by simp [hauth], ?_⟩
          intro hmem
          simp only [StepResult.sent, List.mem_singleton] at hmem
          exact errorOut_ne_unauth e hmem.symm
    case putEnd p =>
      simp [routeMessage, typeFalsy, typeOf, ensureAuth, hauth, handlePutEnd] at h
      rw [← h]
      simp [hauth]
    case getBegin p =>
      simp [routeMessage, typeFalsy, typeOf, ensureAuth, hauth, handleGetBegin] at h
      cases hf : stor.fileSize p with
      | error e =>
        rw [hf] at h
        simp at h
        rw [← h]
        refine ⟨by simp [hauth], ?_⟩
        intro hmem
        simp only [StepResult.sent, List.mem_singleton] at hmem
        exact errorOut_ne_unauth e hmem.symm
      | ok size =>
        rw [hf] at h
        simp at h
        obtain ⟨msgs, hl, hm⟩ := h
        rw [← hm]
        refine ⟨by simp [hauth], ?_⟩
        intro hmem
        rcases List.mem_cons.mp hmem with h1 | h2
        · simp at h1
        · exact getLoop_no_unauth stor p size fuel 0 msgs hl h2
    case listDir p =>
      simp [routeMessage, typeFalsy, typeOf, ensureAuth, hauth, handleList] at h
      cases hl : stor.listEntries p with
      | ok items =>
        rw [hl] at h
        rw [← h]
        simp [hauth]
      | error e =>
        rw [hl] at h
        rw [← h]
        refine ⟨by simp [hauth], ?_⟩
        intro hmem
        simp only [StepResult.sent, List.mem_singleton] at hmem
        exact errorOut_ne_unauth e hmem.symm
    case del p =>
      simp [routeMessage, typeFalsy, typeOf, ensureAuth, hauth, handleDel] at h
      cases hd : stor.deleteFile p with
      | ok u =>
        rw [hd] at h
        rw [← h]
        simp [hauth]
      | error e =>
        rw [hd] at h
        rw [← h]
        simp [hauth]
    case infoReq =>
      simp [routeMessage, typeFalsy, typeOf, ensureAuth, hauth, handleInfo] at h
      rw [← h]
      simp [hauth]
    case bye =>
      simp [routeMessage, typeFalsy, typeOf, ensureAuth, hauth, handleBye] at h
      rw [← h]
      simp [hauth]
    case noType =>
      simp [routeMessage, typeFalsy, typeOf] at h
      rw [← h]
      simp [hauth]
    case unknown ty =>
      by_cases hty : ty = ""
      · simp [routeMessage, typeFalsy, typeOf, hty] at h
        rw [← h]
        simp [hauth]
      · by_cases htyA : ty = "AUTH"
        · simp [routeMessage, typeFalsy, typeOf, ensureAuth, hauth, hty, htyA] at h
          rw [← h]
          simp [hauth]
        · simp [routeMessage, typeFalsy, typeOf, ensureAuth, hauth, hty, htyA] at h
          rw [← h]
          simp [hauth]
  refine ⟨fun m r h => (main m r h).1, ?_, fun m r h => (main m r h).2⟩
  intro u p hne
  simp [routeMessage, typeFalsy, typeOf, ensureAuth, hauth, handleAuth, hne]

/-- Witness for C10: in the authenticated empty-uploads state, a wrong
AUTH is answered AUTH_ERROR and the state — in particular the authed
flag — is unchanged. -/
theorem C10_witness :
    stReady.authed = true ∧
    routeMessage oracleEmpty creds0 info0 stReady (LeoMsg.auth "user" "wrong") 0
      = some ⟨stReady, [OutMsg.authError "AUTH_INVALID_CREDENTIALS" "Identifiants invalides"],
          false, false⟩ :=
  ⟨rfl,
    (C10_authed_monotone oracleEmpty creds0 info0 stReady 0 rfl).2.1
      "user" "wrong" (by decide)⟩

/-
GET streaming (claim C8).  The reads of a regular file of content c are
(c.drop offset).take length, matching Storage.readChunk of
src/unnamed/part_005 lines 43-54 on a file that does not change during the
stream; Storage.fileSize is the content length.
-/

/-- The chunk schedule of the GET loop over a file content: starting at an
offset, take up to 65536 bytes and advance by the returned chunk length.
Fuel-indexed so that it evaluates; c.length fuel always suffices because
every chunk below the size is nonempty. -/
def getChunksAux (c : List Nat) : Nat → Nat → List (Nat × List Nat)
  | 0, _ => []
  | fuel + 1, offset =>
    if offset < c.length then
      (offset, (c.drop offset).take 65536)
        :: getChunksAux c fuel (offset + ((c.drop offset).take 65536).length)
    else []

def getChunks (c : List Nat) : List (Nat × List Nat) := getChunksAux c c.length 0

/-- Offsets start at the expected value and each successive offset grows by
exactly the previous chunk length. -/
def chunksConsecutive : List (Nat × List Nat) → Nat → Bool
  | [], _ => true
  | (off, ch) :: rest, expected =>
    off == expected && chunksConsecutive rest (off + ch.length)

theorem getLoop_succ (stor : StorageOracle) (p : String) (size fuel offset : Nat)
    (ho : offset < size) :
    getLoop stor p size (fuel + 1) offset
      = match stor.readChunk p offset 65536 with
        | .error e => some [errorOut (mapStorageError e)]
        | .ok chunk =>
          (getLoop stor p size fuel (offset + chunk.length)).map
            (fun rest => OutMsg.getChunk p offset chunk :: rest) := by
  rw [getLoop, if_pos ho]

theorem getLoop_done (stor : StorageOracle) (p : String) (size fuel offset : Nat)
    (ho : ¬ offset < size) :
    getLoop stor p size fuel offset = some [OutMsg.getEnd p] := by
  cases fuel with
  | zero => rw [getLoop, if_neg ho]
  | succ f => rw [getLoop, if_neg ho]

theorem getChunksAux_zero (c : List Nat) (offset : Nat) :
    getChunksAux c 0 offset = [] := rfl

theorem getChunksAux_succ (c : List Nat) (fuel offset : Nat) (ho : offset < c.length) :
    getChunksAux c (fuel + 1) offset
      = (offset, (c.drop offset).take 65536)
          :: getChunksAux c fuel (offset + ((c.drop offset).take 65536).length) := by
  rw [getChunksAux, if_pos ho]

theorem getChunksAux_succ_done (c : List Nat) (fuel offset : Nat)
    (ho : ¬ offset < c.length) :
    getChunksAux c (fuel + 1) offset = [] := by
  rw [getChunksAux, if_neg ho]

theorem chunk_length_eq (c : List Nat) (offset : Nat) :
    ((c.drop offset).take 65536).length = min 65536 (c.length - offset) := by
  simp [List.length_take, List.length_drop]

/-- With content-consistent reads and enough fuel, the GET loop emits
exactly the scheduled chunks followed by GET_END. -/
theorem getLoop_content (stor : StorageOracle) (p : String) (c : List Nat)
    (hrc : ∀ off len, stor.readChunk p off len = Except.ok ((c.drop off).take len)) :
    ∀ (fuel offset : Nat), c.length - offset ≤ fuel →
      getLoop stor p c.length fuel offset
        = some ((getChunksAux c fuel offset).map
            (fun oc => OutMsg.getChunk p oc.1 oc.2) ++ [OutMsg.getEnd p]) := by
  intro fuel
  induction fuel with
  | zero =>
    intro offset hle
    have ho : ¬ offset < c.length := by omega
    rw [getLoop_done _ _ _ _ _ ho, getChunksAux_zero]
    simp
  | succ fuel ih =>
    intro offset hle
    by_cases ho : offset < c.length
    · have hck := chunk_length_eq c offset
      have hfuel : c.length - (offset + ((c.drop offset).take 65536).length) ≤ fuel := by
        omega
      rw [getLoop_succ _ _ _ _ _ ho, hrc offset 65536]
      simp only []
      rw [ih _ hfuel, getChunksAux_succ _ _ _ ho]
      simp
    · rw [getLoop_done _ _ _ _ _ ho, getChunksAux_succ_done _ _ _ ho]
      simp

/-- The scheduled chunks reassemble the tail of the content. -/
theorem getChunksAux_flatten (c : List Nat) :
    ∀ (fuel offset : Nat), c.length - offset ≤ fuel →
      ((getChunksAux c fuel offset).map Prod.snd).flatten = c.drop offset := by
  intro fuel
  induction fuel with
  | zero =>
    intro offset hle
    rw [getChunksAux_zero]
    have : c.length ≤ offset := by omega
    simp [List.drop_of_length_le this]
  | succ fuel ih =>
    intro offset hle
    by_cases ho : offset < c.length
    · have hck := chunk_length_eq c offset
      have hfuel : c.length - (offset + ((c.drop offset).take 65536).length) ≤ fuel := by
        omega
      rw [getChunksAux_succ _ _ _ ho]
      simp only [List.map_cons, List.flatten_cons, ih _ hfuel]
      have hdd : c.drop (offset + ((c.drop offset).take 65536).length)
          = (c.drop offset).drop (((c.drop offset).take 65536).length) := by
        rw [List.drop_drop]
      rw [hdd]
      have htt : ((c.drop offset).take 65536).length = min 65536 (c.drop offset).length := by
        simp [List.length_take]
      rw [htt]
      have : (c.drop offset).take (min 65536 (c.drop offset).length)
          = (c.drop offset).take 65536 := by
        rcases Nat.le_total 65536 (c.drop offset).length with hle2 | hle2
        · rw [Nat.min_eq_left hle2]
        · rw [Nat.min_eq_right hle2, List.take_of_length_le hle2,
            List.take_of_length_le (by omega)]
      rw [← this, List.take_append_drop]
    · rw [getChunksAux_succ_done _ _ _ ho]
      have : c.length ≤ offset := by omega
      simp [List.drop_of_length_le this]

/-- The scheduled offsets are consecutive. -/
theorem getChunksAux_consecutive (c : List Nat) :
    ∀ (fuel offset : Nat), chunksConsecutive (getChunksAux c fuel offset) offset = true := by
  intro fuel
  induction fuel with
  | zero =>
    intro offset
    rw [getChunksAux_zero]
    rfl
  | succ fuel ih =>
    intro offset
    by_cases ho : offset < c.length
    · rw [getChunksAux_succ _ _ _ ho]
      simp [chunksConsecutive, ih]
    · rw [getChunksAux_succ_done _ _ _ ho]
      rfl

/-- Every scheduled chunk is nonempty (offsets strictly increase). -/
theorem getChunksAux_nonempty (c : List Nat) :
    ∀ (fuel offset : Nat),
      (getChunksAux c fuel offset).all (fun oc => decide (0 < oc.2.length)) = true := by
  intro fuel
  induction fuel with
  | zero =>
    intro offset
    rw [getChunksAux_zero]
    rfl
  | succ fuel ih =>
    intro offset
    by_cases ho : offset < c.length
    · rw [getChunksAux_succ _ _ _ ho]
      have hck := chunk_length_eq c offset
      simp only [List.all_cons, ih, Bool.and_true]
      simp
      omega
    · rw [getChunksAux_succ_done _ _ _ ho]
      rfl

/-- A storage oracle backed by a single regular file of content c at every
path: fileSize is the length, readChunk returns the bytes between offset
and offset + length. -/
def contentOracle (c : List Nat) : StorageOracle where
  writeWholeFile := fun _ _ => Except.ok ()
  writeChunk := fun _ _ _ => Except.ok ()
  fileSize := fun _ => Except.ok c.length
  readChunk := fun _ off len => Except.ok ((c.drop off).take len)
  listEntries := fun _ => Except.ok []
  deleteFile := fun _ => Except.ok ()

/-- C8: a GET_BEGIN in the authenticated state over a file of content c
replies GET_META with the size, then GET_CHUNK messages produced from
65536-byte reads whose offsets start at 0 and grow by exactly the previous
chunk length (each chunk nonempty, and the chunks reassemble c), then
GET_END, all on the same path; when fileSize fails the only reply is the
single mapped ERROR (FILE_NOT_FOUND for a missing file) and no GET_META is
sent; and a read failure between GET_META and GET_END emits the mapped
ERROR as the only remaining output, without GET_END. -/
theorem C8_get_stream (c : List Nat) (p : String) (st : SessionState)
    (stor : StorageOracle)
    (hfs : stor.fileSize p = Except.ok c.length)
    (hrc : ∀ off len, stor.readChunk p off len = Except.ok ((c.drop off).take len)) :
    (handleGetBegin stor st p c.length
      = some ⟨st, OutMsg.getMeta p c.length ::
          ((getChunks c).map (fun oc => OutMsg.getChunk p oc.1 oc.2) ++ [OutMsg.getEnd p]),
          false, false⟩) ∧
    chunksConsecutive (getChunks c) 0 = true ∧
    (getChunks c).all (fun oc => decide (0 < oc.2.length)) = true ∧
    ((getChunks c).map Prod.snd).flatten = c ∧
    (∀ (stor2 : StorageOracle) (st2 : SessionState) (q : String) (fuel : Nat)
        (e : StorageError), stor2.fileSize q = Except.error e →
      handleGetBegin stor2 st2 q fuel
        = some ⟨st2, [errorOut (mapStorageError e)], false, false⟩) ∧
    (∀ msg, mapStorageError ⟨"FILE_NOT_FOUND", msg⟩ = ⟨"FILE_NOT_FOUND", msg⟩) ∧
    (∀ (stor2 : StorageOracle) (q : String) (size fuel offset : Nat) (e : StorageError),
      offset < size → stor2.readChunk q offset 65536 = Except.error e →
      getLoop stor2 q size (fuel + 1) offset = some [errorOut (mapStorageError e)] ∧
      OutMsg.getEnd q ∉ [errorOut (mapStorageError e)]) := by
  refine ⟨?_, getChunksAux_consecutive c c.length 0, getChunksAux_nonempty c c.length 0,
    by simpa using getChunksAux_flatten c c.length 0 (by omega), ?_, ?_, ?_⟩
  · simp only [handleGetBegin, hfs, getLoop_content stor p c hrc c.length 0 (by omega)]
    rfl
  · intro stor2 st2 q fuel e herr
    unfold handleGetBegin
    rw [herr]
  · intro msg
    rfl
  · intro stor2 q size fuel offset e ho herr
    refine ⟨?_, by simp [errorOut]⟩
    rw [getLoop_succ _ _ _ _ _ ho, herr]

/-- Witness for C8 on the three-byte file [10, 20, 30] at path "f" (one
chunk), plus a missing-file GET against the empty storage. -/
theorem C8_witness :
    ((contentOracle [10, 20, 30]).fileSize "f"
        = Except.ok ([10, 20, 30] : List Nat).length) ∧
    (handleGetBegin (contentOracle [10, 20, 30]) stReady "f"
        ([10, 20, 30] : List Nat).length
      = some ⟨stReady, OutMsg.getMeta "f" ([10, 20, 30] : List Nat).length ::
          ((getChunks [10, 20, 30]).map
            (fun oc => OutMsg.getChunk "f" oc.1 oc.2) ++ [OutMsg.getEnd "f"]),
          false, false⟩) ∧
    chunksConsecutive (getChunks [10, 20, 30]) 0 = true ∧
    handleGetBegin oracleEmpty stReady "absent.txt" 0
      = some ⟨stReady,
          [errorOut (mapStorageError ⟨"FILE_NOT_FOUND", "Fichier introuvable"⟩)],
          false, false⟩ :=
  ⟨rfl,
    (C8_get_stream [10, 20, 30] "f" stReady (contentOracle [10, 20, 30]) rfl
      (fun _ _ => rfl)).1,
    (C8_get_stream [10, 20, 30] "f" stReady (contentOracle [10, 20, 30]) rfl
      (fun _ _ => rfl)).2.1,
    (C8_get_stream [10, 20, 30] "f" stReady (contentOracle [10, 20, 30]) rfl
      (fun _ _ => rfl)).2.2.2.2.1 oracleEmpty stReady "absent.txt" 0
      ⟨"FILE_NOT_FOUND", "Fichier introuvable"⟩ rfl⟩

/-
Key derivation, from src/src/crypto.ts.  The Node builtins hkdfSync and
diffieHellman are not part of the repository sources, so they are modelled
from the specification: hkdfSync as RFC 5869 HKDF parametric in the HMAC
function of the chosen digest, X25519 Diffie-Hellman as scalar
multiplication in a commutative monoid (RFC 7748), with key bytes as
Nat lists.
-/

/-- Modelled from the spec: RFC 5869 extract step, PRK = HMAC(salt, IKM);
the Node hkdfSync builtin is absent from src. -/
def hkdfExtract (hmac : List Nat → List Nat → List Nat) (salt ikm : List Nat) :
    List Nat := hmac salt ikm

/-- Modelled from the spec: RFC 5869 block T(i), with T(0) empty and
T(i+1) = HMAC(PRK, T(i) || info || [i+1]). -/
def hkdfT (hmac : List Nat → List Nat → List Nat) (prk info : List Nat) :
    Nat → List Nat
  | 0 => []
  | i + 1 => hmac prk (hkdfT hmac prk info i ++ info ++ [i + 1])

/-- Modelled from the spec: concatenation T(1) || ... || T(n). -/
def hkdfOkm (hmac : List Nat → List Nat → List Nat) (prk info : List Nat) :
    Nat → List Nat
  | 0 => []
  | n + 1 => hkdfOkm hmac prk info n ++ hkdfT hmac prk info (n + 1)

/-- Modelled from the spec: RFC 5869 expand step for a 32-byte digest,
the first len bytes of T(1) || ... || T(ceil(len / 32)). -/
def hkdfExpand (hmac : List Nat → List Nat → List Nat) (prk info : List Nat)
    (len : Nat) : List Nat :=
  (hkdfOkm hmac prk info ((len + 31) / 32)).take len

/-- Modelled from the spec: Node hkdfSync(digest, ikm, salt, info, keylen)
as extract-then-expand. -/
def hkdfSync (hmac : List Nat → List Nat → List Nat) (ikm salt info : List Nat)
    (len : Nat) : List Nat :=
  hkdfExpand hmac (hkdfExtract hmac salt ikm) info len

/-- UTF-8 bytes of a string, as Buffer.from produces them. -/
def strBytes (s : String) : List Nat := s.toUTF8.toList.map (fun b => b.toNat)

/-- deriveSessionKeys, from src/src/crypto.ts lines 19-23: HKDF over the
shared secret with empty salt and info "LEO-SESSION-" ++ sessionId, output
64 bytes; bytes 0-31 are the client-to-server key, bytes 32-63 the
server-to-client key. -/
def deriveSessionKeys (hmac : List Nat → List Nat → List Nat)
    (sharedSecret : List Nat) (sessionId : String) : List Nat × List Nat :=
  let info := strBytes ("LEO-SESSION-" ++ sessionId)
  let okm := hkdfSync hmac sharedSecret [] info 64
  (okm.take 32, (okm.drop 32).take 32)

/-- Modelled from the spec: X25519 shared secret of src/src/crypto.ts
lines 13-17, as scalar multiplication of the private scalar on the peer
public point. -/
def computeSharedSecret {M : Type} [AddCommMonoid M] (priv : Nat) (pub : M) : M :=
  priv • pub

/-- Modelled from the spec: the public key of a private scalar over the
curve base point g. -/
def pubKeyOf {M : Type} [AddCommMonoid M] (g : M) (priv : Nat) : M := priv • g

theorem hkdfOkm_length (hmac : List Nat → List Nat → List Nat)
    (hlen : ∀ k m, (hmac k m).length = 32) (prk info : List Nat) :
    ∀ n, (hkdfOkm hmac prk info n).length = 32 * n := by
  intro n
  induction n with
  | zero => rfl
  | succ n ih =>
    simp only [hkdfOkm, List.length_append, ih, hkdfT, hlen]
    omega

/-- C6: deriveSessionKeys is HKDF with IKM the shared secret, empty salt,
info the UTF-8 bytes of "LEO-SESSION-" ++ sessionId and output 64 bytes,
the first 32 bytes being c2s and the next 32 bytes s2c (the two keys being
distinct whenever the HMAC is collision-free); and X25519 agreement is
symmetric, so both endpoints obtain the same shared secret and derive the
same key pair for the same sessionId. -/
theorem C6_derive_keys_and_dh {M : Type} [AddCommMonoid M] (g : M) (a b : Nat)
    (hmac : List Nat → List Nat → List Nat)
    (hlen : ∀ k m, (hmac k m).length = 32)
    (hinj : ∀ k, Function.Injective (hmac k))
    (s : List Nat) (sid : String) :
    deriveSessionKeys hmac s sid
      = ((hkdfSync hmac s [] (strBytes ("LEO-SESSION-" ++ sid)) 64).take 32,
         (hkdfSync hmac s [] (strBytes ("LEO-SESSION-" ++ sid)) 64).drop 32) ∧
    (hkdfSync hmac s [] (strBytes ("LEO-SESSION-" ++ sid)) 64).length = 64 ∧
    (deriveSessionKeys hmac s sid).1.length = 32 ∧
    (deriveSessionKeys hmac s sid).2.length = 32 ∧
    (deriveSessionKeys hmac s sid).1 ≠ (deriveSessionKeys hmac s sid).2 ∧
    computeSharedSecret a (pubKeyOf g b) = computeSharedSecret b (pubKeyOf g a) ∧
    (∀ ser : M → List Nat,
      deriveSessionKeys hmac (ser (computeSharedSecret a (pubKeyOf g b))) sid
        = deriveSessionKeys hmac (ser (computeSharedSecret b (pubKeyOf g a))) sid) := by
  have hdh : computeSharedSecret a (pubKeyOf g b) = computeSharedSecret b (pubKeyOf g a) := by
    unfold computeSharedSecret pubKeyOf
    rw [smul_smul, smul_smul, Nat.mul_comm]
  set prk := hkdfExtract hmac [] s with hprk
  set info := strBytes ("LEO-SESSION-" ++ sid) with hinfo
  set T1 := hkdfT hmac prk info 1 with hT1
  set T2 := hkdfT hmac prk info 2 with hT2
  have hlT1 : T1.length = 32 := hlen _ _
  have hlT2 : T2.length = 32 := hlen _ _
  have hokm : hkdfSync hmac s [] info 64 = T1 ++ T2 := by
    show (hkdfOkm hmac prk info ((64 + 31) / 32)).take 64 = T1 ++ T2
    have h2 : (64 + 31) / 32 = 2 := by norm_num
    rw [h2]
    show (([] ++ T1) ++ T2).take 64 = T1 ++ T2
    rw [List.nil_append]
    exact List.take_of_length_le (by rw [List.length_append]; omega)
  have hc2s : (deriveSessionKeys hmac s sid).1 = T1 := by
    show (hkdfSync hmac s [] info 64).take 32 = T1
    rw [hokm]
    exact List.take_left' hlT1
  have hs2c : (deriveSessionKeys hmac s sid).2 = T2 := by
    show ((hkdfSync hmac s [] info 64).drop 32).take 32 = T2
    rw [hokm, List.drop_left' hlT1]
    exact List.take_of_length_le (by omega)
  have hdrop : (hkdfSync hmac s [] info 64).drop 32 = T2 := by
    rw [hokm, List.drop_left' hlT1]
  refine ⟨?_, ?_, ?_, ?_, ?_, hdh, fun ser => by rw [hdh]⟩
  · have : (deriveSessionKeys hmac s sid).1 = (hkdfSync hmac s [] info 64).take 32 := rfl
    exact Prod.ext this (by rw [hs2c, hdrop])
  · rw [hokm, List.length_append]
    omega
  · rw [hc2s]
    exact hlT1
  · rw [hs2c]
    exact hlT2
  · rw [hc2s, hs2c]
    intro heq
    have harg := hinj prk heq
    have hlarg := congrArg List.length harg
    simp only [hkdfT, List.length_append, List.length_cons, List.length_nil, hlen]
      at hlarg
    omega

/-- A concrete 32-byte-output collision-free keyed function for the C6
witness: the code of the message followed by 31 zero bytes. -/
def hmacW : List Nat → List Nat → List Nat :=
  fun _ m => Encodable.encode m :: List.replicate 31 0

theorem hmacW_length : ∀ (k m : List Nat), (hmacW k m).length = 32 := by
  intro k m
  simp [hmacW]

theorem hmacW_injective : ∀ k : List Nat, Function.Injective (hmacW k) := by
  intro k x y h
  simp only [hmacW, List.cons.injEq] at h
  exact Encodable.encode_injective h.1

/-- Witness for C6 at the shared secret [1], session id "ab" and scalars
2 and 3 over the additive monoid of naturals with base point 1. -/
theorem C6_witness :
    deriveSessionKeys hmacW [1] "ab"
      = ((hkdfSync hmacW [1] [] (strBytes ("LEO-SESSION-" ++ "ab")) 64).take 32,
         (hkdfSync hmacW [1] [] (strBytes ("LEO-SESSION-" ++ "ab")) 64).drop 32) ∧
    (hkdfSync hmacW [1] [] (strBytes ("LEO-SESSION-" ++ "ab")) 64).length = 64 ∧
    (deriveSessionKeys hmacW [1] "ab").1 ≠ (deriveSessionKeys hmacW [1] "ab").2 ∧
    computeSharedSecret 2 (pubKeyOf (1 : Nat) 3)
      = computeSharedSecret 3 (pubKeyOf (1 : Nat) 2) ∧
    deriveSessionKeys hmacW [computeSharedSecret 2 (pubKeyOf (1 : Nat) 3)] "ab"
      = deriveSessionKeys hmacW [computeSharedSecret 3 (pubKeyOf (1 : Nat) 2)] "ab" := by
  obtain ⟨h1, h2, h3, h4, h5, h6, h7⟩ :=
    C6_derive_keys_and_dh (1 : Nat) 2 3 hmacW hmacW_length hmacW_injective [1] "ab"
  exact ⟨h1, h2, h5, h6, h7 (fun n => [n])⟩

end Leo
